import Mathlib

/-!
Shallow embedding of the IMPRS summer-school notebook `nqs_time_evolution.ipynb`
(quantum Ising time evolution with neural quantum states via the jVMC library).

The notebook's own code consists of: helper functions (`norm_fun`,
`save_to_disk`, `load_from_disk`), operator construction for the Ising
Hamiltonian `H`, the initialization Hamiltonian `H_init`, the transverse
polarization observable `X`, TDVP configuration objects, and the
time-evolution driver loop.  Those parts are embedded below directly from the
source.  Pieces of the jVMC library that the spec describes but that are not
part of this repository (the force-vector scaling inside the TDVP estimator
and the regularized linear solver) are modelled from the spec, and are marked
as such in their doc comments.
-/

namespace NQSNotebook

/-! ### Complex scalars

The notebook computes with complex floating-point numbers; they are embedded
as complex numbers with rational components, keeping every definition
executable. -/

/-- A complex number with rational real and imaginary parts. -/
@[ext]
structure QComplex where
  re : ℚ
  im : ℚ
deriving DecidableEq, Repr

/-- Componentwise addition. -/
def qadd (a b : QComplex) : QComplex := ⟨a.re + b.re, a.im + b.im⟩

/-- Componentwise negation. -/
def qneg (a : QComplex) : QComplex := ⟨-a.re, -a.im⟩

/-- Complex multiplication. -/
def qmul (a b : QComplex) : QComplex :=
  ⟨a.re * b.re - a.im * b.im, a.re * b.im + a.im * b.re⟩

instance : Zero QComplex := ⟨⟨0, 0⟩⟩

instance : One QComplex := ⟨⟨1, 0⟩⟩

instance : Add QComplex := ⟨qadd⟩

instance : Neg QComplex := ⟨qneg⟩

instance : Mul QComplex := ⟨qmul⟩

instance : CommRing QComplex where
  nsmul := nsmulRec
  zsmul := zsmulRec
  add_assoc a b c := by
    show qadd (qadd a b) c = qadd a (qadd b c)
    apply QComplex.ext <;> simp [qadd] <;> ring
  zero_add a := by
    show qadd ⟨0, 0⟩ a = a
    apply QComplex.ext <;> simp [qadd]
  add_zero a := by
    show qadd a ⟨0, 0⟩ = a
    apply QComplex.ext <;> simp [qadd]
  add_comm a b := by
    show qadd a b = qadd b a
    apply QComplex.ext <;> simp [qadd] <;> ring
  left_distrib a b c := by
    show qmul a (qadd b c) = qadd (qmul a b) (qmul a c)
    apply QComplex.ext <;> simp [qadd, qmul] <;> ring
  right_distrib a b c := by
    show qmul (qadd a b) c = qadd (qmul a c) (qmul b c)
    apply QComplex.ext <;> simp [qadd, qmul] <;> ring
  zero_mul a := by
    show qmul ⟨0, 0⟩ a = ⟨0, 0⟩
    apply QComplex.ext <;> simp [qmul]
  mul_zero a := by
    show qmul a ⟨0, 0⟩ = ⟨0, 0⟩
    apply QComplex.ext <;> simp [qmul]
  mul_assoc a b c := by
    show qmul (qmul a b) c = qmul a (qmul b c)
    apply QComplex.ext <;> simp [qmul] <;> ring
  one_mul a := by
    show qmul ⟨1, 0⟩ a = a
    apply QComplex.ext <;> simp [qmul]
  mul_one a := by
    show qmul a ⟨1, 0⟩ = a
    apply QComplex.ext <;> simp [qmul]
  mul_comm a b := by
    show qmul a b = qmul b a
    apply QComplex.ext <;> simp [qmul] <;> ring
  neg_add_cancel a := by
    show qadd (qneg a) a = ⟨0, 0⟩
    apply QComplex.ext <;> simp [qadd, qneg]

/-- The imaginary unit `1.j`. -/
def qI : QComplex := ⟨0, 1⟩

/-- Complex conjugation (`jnp.conj`). -/
def qconj (a : QComplex) : QComplex := ⟨a.re, -a.im⟩

/-- The squared modulus of a complex scalar. -/
def qnormSq (a : QComplex) : ℚ := a.re * a.re + a.im * a.im

/-! ### Operators (`BranchFreeOperator`, `Sx`, `Sz`, `scal_opstr`) -/

/-- The single-site Pauli operators used by the notebook. -/
inductive PauliOp where
  | sx : PauliOp
  | sz : PauliOp
deriving DecidableEq, Repr

/-- An operator string: a list of (site, Pauli operator) factors. -/
abbrev OpString := List (Nat × PauliOp)

/-- One term of a `BranchFreeOperator`: a scalar coefficient together with an
operator string, as produced by `scal_opstr`. -/
abbrev OpTerm := ℚ × OpString

/-- `Sx(l)` from jVMC: the Pauli x operator acting on site `l`. -/
def Sx (l : Nat) : Nat × PauliOp := (l, PauliOp.sx)

/-- `Sz(l)` from jVMC: the Pauli z operator acting on site `l`. -/
def Sz (l : Nat) : Nat × PauliOp := (l, PauliOp.sz)

/-- `scal_opstr(c, ops)` from jVMC: scales an operator string by `c`. -/
def scal_opstr (c : ℚ) (ops : OpString) : OpTerm := (c, ops)

/-- A `BranchFreeOperator` is the list of terms added to it via `add`. -/
abbrev BranchFreeOp := List OpTerm

/-- Action of a single Pauli factor on the local basis value of one site:
the returned pair is (new local value, matrix element).  `sx` flips the spin
with matrix element 1; `sz` is diagonal with value ±1 (jVMC library
convention, with basis value `true` ↦ +1; only `sx` is exercised by the
claims below). -/
def applyOp : PauliOp → Bool → Bool × ℚ
  | PauliOp.sx, b => (!b, 1)
  | PauliOp.sz, b => (b, if b then 1 else -1)

/-- Action of an operator string on a configuration: returns the connected
configuration together with the product of the matrix elements. -/
def applyOpString (ops : OpString) (s : Nat → Bool) : (Nat → Bool) × ℚ :=
  ops.foldl
    (fun acc p =>
      (Function.update acc.1 p.1 (applyOp p.2 (acc.1 p.1)).1,
       acc.2 * (applyOp p.2 (acc.1 p.1)).2))
    (s, 1)

/-- The local (off-shell) value of an operator at configuration `s` under
wave function `ψ`:  `O_loc(s) = Σ_terms c · O_{s,s'} · ψ(s')/ψ(s)`,
mirroring the local-energy estimator the notebook builds from
`get_s_primes` matrix elements. -/
def localValue (O : BranchFreeOp) (ψ : (Nat → Bool) → ℚ) (s : Nat → Bool) : ℚ :=
  (O.map (fun tm => tm.1 * (applyOpString tm.2 s).2 * ψ (applyOpString tm.2 s).1 / ψ s)).sum

/-! ### Notebook globals and operator constructions -/

/-- `L = 8` (the "Fix a system size" cell). -/
def L : ℕ := 8

/-- `g = 0.3` (transverse field). -/
def g : ℚ := 3 / 10

/-- `h = 0.25` (longitudinal field). -/
def h : ℚ := 1 / 4

/-- The Hamiltonian construction loop of the notebook, parameterized by the
globals it reads:  for `l in range(L)` add
`scal_opstr(-1.0, (Sx(l), Sx((l+1)%L)))`, `scal_opstr(-h, (Sx(l),))`,
`scal_opstr(-g, (Sz(l),))`. -/
def buildH (numSites : ℕ) (gv hv : ℚ) : BranchFreeOp :=
  (List.range numSites).foldl
    (fun O l =>
      O ++ [scal_opstr (-1) [Sx l, Sx ((l + 1) % numSites)]]
        ++ [scal_opstr (-hv) [Sx l]]
        ++ [scal_opstr (-gv) [Sz l]])
    []

/-- `H`, the quantum Ising Hamiltonian of the notebook. -/
def H : BranchFreeOp := buildH L g h

/-- The `H_init` construction inside `initialize_in_X_state`: for
`l in range(L)` add `scal_opstr(-1.0, (Sx(l),))`. -/
def buildHinit (numSites : ℕ) : BranchFreeOp :=
  (List.range numSites).foldl (fun O l => O ++ [scal_opstr (-1) [Sx l]]) []

/-- `H_init = −Σ_l σˣ_l` used for the initial ground-state search. -/
def H_init : BranchFreeOp := buildHinit L

/-- The `X` observable construction loop: for `l in range(L)` add
`scal_opstr(1. / L, (Sx(l),))`. -/
def buildX (numSites : ℕ) : BranchFreeOp :=
  (List.range numSites).foldl
    (fun O l => O ++ [scal_opstr (1 / (numSites : ℚ)) [Sx l]]) []

/-- `X`, the transverse polarization observable of the notebook. -/
def X : BranchFreeOp := buildX L

/-! ### Time-evolution run constants -/

/-- `t = 0.0`, the initial time of the run. -/
def t0 : ℚ := 0

/-- `dt = 1e-3`, the initial time step of the run. -/
def dt : ℚ := 1 / 1000

/-- `tmax = 2.0`, the total simulated time of the run. -/
def tmax : ℚ := 2

/-- The configuration arguments the notebook passes to the jVMC
`AdaptiveHeun` constructor. -/
structure AdaptiveHeun where
  timeStep : ℚ
  tol : ℚ

/-- `stepper = jVMC.util.stepper.AdaptiveHeun(timeStep=dt, tol=1e-4)`. -/
def stepper : AdaptiveHeun := { timeStep := dt, tol := 1 / 10000 }

/-! ### TDVP configuration objects -/

/-- The `makeReal` option of the jVMC `TDVP` class. -/
inductive MakeReal where
  | real : MakeReal
  | imag : MakeReal
deriving DecidableEq, Repr

/-- The configuration arguments the notebook passes to the jVMC `TDVP`
constructor. -/
structure TDVPConfig where
  svdTol : ℚ
  rhsPrefac : QComplex
  makeReal : MakeReal
  diagonalShift : ℚ

/-- `gsEquation = TDVP(sampler, svdTol=1e-8, rhsPrefactor=1.0,
makeReal='real', diagonalShift=10)` from `initialize_in_X_state`. -/
def gsEquation : TDVPConfig :=
  { svdTol := 1 / 100000000
    rhsPrefac := 1
    makeReal := MakeReal.real
    diagonalShift := 10 }

/-- `tdvpEquation = TDVP(sampler, svdTol=1e-8, rhsPrefactor=1.j,
makeReal='imag')` from the time-evolution setup cell; `diagonalShift` is not
passed and takes the library default 0. -/
def tdvpEquation : TDVPConfig :=
  { svdTol := 1 / 100000000
    rhsPrefac := qI
    makeReal := MakeReal.imag
    diagonalShift := 0 }

/-- Modelled from the spec: the TDVP estimator's right-hand-side prefactor
"scales F before return" (jVMC library code, absent from src).  The scaled
force handed back by the estimator. -/
def scaledForce {n : ℕ} (cfg : TDVPConfig) (F : Fin n → QComplex) : Fin n → QComplex :=
  fun k => cfg.rhsPrefac * F k

/-! ### The norm function handed to the adaptive stepper -/

/-- `norm_fun(v, df) = jnp.real(jnp.conj(jnp.transpose(v)).dot(df(v)))`
from the notebook's helper functions (the notebook's default for `df` is the
identity). -/
def norm_fun {n : ℕ} (v : Fin n → QComplex) (df : (Fin n → QComplex) → Fin n → QComplex) : ℚ :=
  (∑ i, qconj (v i) * df v i).re

/-- The norm function the driver actually supplies to the stepper:
`normFunction = norm_fun with df = tdvpEquation.S_dot`, where `S_dot`
applies the quantum geometric tensor `S` to its argument (`S_dot` is jVMC
library code; it is modelled here as multiplication by an arbitrary matrix
`S`). -/
def suppliedNormFunction {n : ℕ} (S : Matrix (Fin n) (Fin n) QComplex)
    (v : Fin n → QComplex) : ℚ :=
  norm_fun v S.mulVec

/-- Concrete 1×1 geometric tensor used to separate the supplied norm from the
Euclidean norm. -/
def exS : Matrix (Fin 1) (Fin 1) QComplex := fun _ _ => ⟨2, 0⟩

/-- Concrete velocity vector used to separate the supplied norm from the
Euclidean norm. -/
def exv : Fin 1 → QComplex := fun _ => ⟨1, 0⟩

/-! ### The regularized linear solver (modelled from the spec) -/

/-- Squared Euclidean norm of a complex vector. -/
def vecNormSq {n : ℕ} (F : Fin n → QComplex) : ℚ := ∑ i, qnormSq (F i)

/-- Modelled from the spec: `RegularizedLinearSolver.solve` (jVMC library
code, absent from src).  The velocity is the regularized pseudo-inverse
(given here as an arbitrary matrix `pinvS`) applied to `F`; the normalized
linear residual is the ratio of the norms of `S·v − F` and `F` (squared
norms are used here, which keeps the development in the rationals and does
not affect the zero case), with the zero-denominator case explicitly
defined as 0 when `‖F‖ = 0`. -/
def solve {n : ℕ} (pinvS S : Matrix (Fin n) (Fin n) QComplex) (F : Fin n → QComplex) :
    (Fin n → QComplex) × ℚ :=
  let v := pinvS.mulVec F
  (v,
   if vecNormSq F = 0 then 0
   else vecNormSq (fun i => S.mulVec v i - F i) / vecNormSq F)

/-! ### Disk persistence helpers -/

/-- The file name both disk helpers build:
`fn + "L=" + str(L) + "_g=" + str(g) + "_h=" + str(h) + ".pkl"`.
The rendered globals are passed as strings. -/
def mkFileName (fn Lstr gstr hstr : String) : String :=
  fn ++ "L=" ++ Lstr ++ "_g=" ++ gstr ++ "_h=" ++ hstr ++ ".pkl"

/-- `save_to_disk(data, fn)`: writes `data` under the key built by
`mkFileName` into the file store (the file system is modelled as a map from
file names to stored objects). -/
def save_to_disk {α : Type} (Lstr gstr hstr : String) (data : α) (fn : String)
    (fs : String → Option α) : String → Option α :=
  Function.update fs (mkFileName fn Lstr gstr hstr) (some data)

/-- `load_from_disk(fn)`: reads back whatever the file store holds under the
key built by `mkFileName`. -/
def load_from_disk {α : Type} (Lstr gstr hstr : String) (fn : String)
    (fs : String → Option α) : Option α :=
  fs (mkFileName fn Lstr gstr hstr)

/-! ### The time-evolution driver loop

The last code cell of the notebook.  The stepper, the residual query and the
observable measurement are collaborators the loop only calls, so they enter
the embedding as an environment of abstract functions over an abstract
parameter type `P`:
`step t θ` models `stepper.step(t, tdvpEquation, psi.get_parameters(), ...)`
and returns `(dp, dt)`; `getResiduals θ` models
`tdvpEquation.get_residuals()` after the corresponding step;
`meas θ` models `measure(observables, psi, sampler)` and returns the means
`(energy, X)`. -/

/-- The collaborators of the driver loop. -/
structure StepEnv (P : Type) where
  step : ℚ → P → P × ℚ
  getResiduals : P → ℚ × ℚ
  meas : P → ℚ × ℚ
  tmax : ℚ

/-- The notebook's `data` dictionary: the three time-series lists. -/
structure TimeSeries (P : Type) where
  parameters : List P
  observables : List (ℚ × ℚ × ℚ)
  residuals : List (ℚ × ℚ × ℚ)

/-- The mutable state of the driver: simulated time `t`, the network
parameters held by `psi`, the `data` dictionary, and the log of every
time-series snapshot handed to `save_to_disk` so far. -/
structure DriverState (P : Type) where
  t : ℚ
  psi : P
  data : TimeSeries P
  saveLog : List (TimeSeries P)

/-- One iteration of the `while t < tmax` body:
`dp, dt = stepper.step(...)`; `psi.set_parameters(dp)`; `t += dt`;
`tdvpErr, linEqRes = tdvpEquation.get_residuals()`; measure observables;
append `[t, energy, X]` to `observables`, the snapshot to `parameters`, and
`[t - dt, tdvpErr, linEqRes]` to `residuals`.  No `save_to_disk` call
occurs in the body. -/
def loopBody {P : Type} (env : StepEnv P) (s : DriverState P) : DriverState P :=
  let dp := (env.step s.t s.psi).1
  let dt := (env.step s.t s.psi).2
  let t2 := s.t + dt
  let r := env.getResiduals dp
  let o := env.meas dp
  { t := t2
    psi := dp
    data :=
      { parameters := s.data.parameters ++ [dp]
        observables := s.data.observables ++ [(t2, o.1, o.2)]
        residuals := s.data.residuals ++ [(t2 - dt, r.1, r.2)] }
    saveLog := s.saveLog }

/-- The `while t < tmax` loop, with an explicit iteration budget `fuel`:
while fuel remains and `t < tmax` holds, run `loopBody`; the guard
`t < tmax` is the only condition tested. -/
def runLoop {P : Type} (env : StepEnv P) : Nat → DriverState P → DriverState P
  | 0, s => s
  | n + 1, s => if s.t < env.tmax then runLoop env n (loopBody env s) else s

/-- The state set up before the loop: `t = 0.0`; measure observables; `data`
starts with one observable record `[t, energy, X]` at `t = 0` and one
parameter snapshot and no residual record; `save_to_disk(data, ...)` is
called once. -/
def initState {P : Type} (env : StepEnv P) (p0 : P) : DriverState P :=
  let o := env.meas p0
  let d : TimeSeries P :=
    { parameters := [p0]
      observables := [(0, o.1, o.2)]
      residuals := [] }
  { t := 0, psi := p0, data := d, saveLog := [d] }

/-- The whole time-evolution cell: initialization and pre-loop save, the
loop, and the single `save_to_disk(data, ...)` call after the loop. -/
def timeEvolutionRun {P : Type} (env : StepEnv P) (p0 : P) (fuel : Nat) : DriverState P :=
  let s2 := runLoop env fuel (initState env p0)
  { s2 with saveLog := s2.saveLog ++ [s2.data] }

/-- The bookkeeping invariant of the `data` dictionary: one observable
record and one parameter snapshot per accepted step plus the initial ones,
and one residual record per accepted step. -/
def seriesInvariant {P : Type} (d : TimeSeries P) : Prop :=
  d.observables.length = d.parameters.length ∧
  d.parameters.length = d.residuals.length + 1

/-! ### Concrete environments used to instantiate hypotheses -/

/-- A concrete driver environment with constant step size 1/100 and
`tmax = 2/100`, used to exercise C2. -/
def envC2 : StepEnv Unit :=
  { step := fun _ _ => ((), 1 / 100)
    getResiduals := fun _ => (0, 0)
    meas := fun _ => (0, 0)
    tmax := 2 / 100 }

/-- The initial driver state for `envC2`. -/
def s0C2 : DriverState Unit := initState envC2 ()

/-- A concrete driver environment with constant step size 1/100 and
`tmax = 2/100`, used to exercise C3. -/
def envC3 : StepEnv Unit :=
  { step := fun _ _ => ((), 1 / 100)
    getResiduals := fun _ => (0, 0)
    meas := fun _ => (0, 0)
    tmax := 2 / 100 }

/-- The initial driver state for `envC3`. -/
def s0C3 : DriverState Unit := initState envC3 ()

/-- A concrete driver environment whose run takes exactly two accepted
steps, used to exercise C4. -/
def envC4 : StepEnv Unit :=
  { step := fun _ _ => ((), 1 / 100)
    getResiduals := fun _ => (0, 0)
    meas := fun _ => (0, 0)
    tmax := 2 / 100 }

/-! ## Theorems -/

/-- Helper: real part of a product of complex scalars. -/
@[simp]
theorem qmul_re (a b : QComplex) : (a * b).re = a.re * b.re - a.im * b.im := rfl

/-- Helper: imaginary part of a product of complex scalars. -/
@[simp]
theorem qmul_im (a b : QComplex) : (a * b).im = a.re * b.im + a.im * b.re := rfl

/-- Helper: real part of a conjugate. -/
@[simp]
theorem qconj_re (a : QComplex) : (qconj a).re = a.re := rfl

/-- Helper: imaginary part of a conjugate. -/
@[simp]
theorem qconj_im (a : QComplex) : (qconj a).im = -a.im := rfl

/-- Helper: real part of zero. -/
@[simp]
theorem qzero_re : (0 : QComplex).re = 0 := rfl

/-- Helper: imaginary part of zero. -/
@[simp]
theorem qzero_im : (0 : QComplex).im = 0 := rfl

/-- Helper: the loop never touches the persistence log. -/
theorem runLoop_saveLog {P : Type} (env : StepEnv P) :
    ∀ (n : Nat) (s : DriverState P), (runLoop env n s).saveLog = s.saveLog := by
  intro n
  induction n with
  | zero => intro s; rfl
  | succ k ih =>
    intro s
    rw [runLoop]
    by_cases hg : s.t < env.tmax
    · rw [if_pos hg]
      exact (ih (loopBody env s)).trans rfl
    · rw [if_neg hg]

/-- Helper: folding the `add`-append of the notebook's operator-building
loops equals mapping over the loop range. -/
theorem foldl_append_singleton {α β : Type} (f : α → β) :
    ∀ (xs : List α) (acc : List β),
      xs.foldl (fun O l => O ++ [f l]) acc = acc ++ xs.map f := by
  intro xs
  induction xs with
  | nil => intro acc; simp
  | cons x tl ih => intro acc; simp [ih]

/-- Claim C2: for every accepted integration step, the time after the step
equals the time before the step plus exactly the accepted step size `dt`
returned by the stepper; and when every accepted `dt` is non-negative, `t`
is monotonically non-decreasing across accepted steps. -/
theorem C2_time_advances_by_dt {P : Type} (env : StepEnv P) (s : DriverState P)
    (n : Nat) (hdt : ∀ (t : ℚ) (p : P), 0 ≤ (env.step t p).2) :
    (loopBody env s).t = s.t + (env.step s.t s.psi).2 ∧
    s.t ≤ (runLoop env n s).t := by
  constructor
  · rfl
  · induction n generalizing s with
    | zero => exact le_refl _
    | succ k ih =>
      rw [runLoop]
      by_cases hg : s.t < env.tmax
      · rw [if_pos hg]
        refine le_trans ?_ (ih (loopBody env s))
        show s.t ≤ s.t + (env.step s.t s.psi).2
        have := hdt s.t s.psi
        linarith
      · rw [if_neg hg]

/-- Witness for C2 at a concrete environment with step size 1/100. -/
theorem C2_witness :
    (loopBody envC2 s0C2).t = s0C2.t + (envC2.step s0C2.t s0C2.psi).2 ∧
    s0C2.t ≤ (runLoop envC2 3 s0C2).t :=
  C2_time_advances_by_dt envC2 s0C2 3 (fun _ _ => by norm_num [envC2])

/-- Claim C3: the loop body runs exactly while `t < tmax` and nothing but
the guard `t ≥ tmax` stops the iteration; and whenever the accepted step
sizes are bounded below by some `δ > 0` (i.e. the integrator does not
signal fatal non-convergence by driving `dt` to zero), the loop reaches
`t ≥ tmax` after a finite number of steps. -/
theorem C3_loop_terminates {P : Type} (env : StepEnv P) (s0 : DriverState P)
    (δ : ℚ) (hpos : 0 < δ) (hstep : ∀ (t : ℚ) (p : P), δ ≤ (env.step t p).2) :
    (∀ (s : DriverState P) (n : Nat), env.tmax ≤ s.t → runLoop env n s = s) ∧
    (∀ (n : Nat) (s : DriverState P), s.t < env.tmax →
      runLoop env (n + 1) s = runLoop env n (loopBody env s)) ∧
    (∃ n : Nat, env.tmax ≤ (runLoop env n s0).t) := by
  refine ⟨?_, ?_, ?_⟩
  · intro s n hts
    induction n with
    | zero => rfl
    | succ k _ => rw [runLoop, if_neg (not_lt.mpr hts)]
  · intro n s hg
    rw [runLoop, if_pos hg]
  · have key : ∀ (k : Nat) (s : DriverState P), env.tmax - s.t ≤ (k : ℚ) * δ →
        env.tmax ≤ (runLoop env k s).t := by
      intro k
      induction k with
      | zero =>
        intro s hs
        show env.tmax ≤ s.t
        push_cast at hs
        linarith
      | succ m ih =>
        intro s hs
        by_cases hg : s.t < env.tmax
        · rw [runLoop, if_pos hg]
          apply ih
          have h1 : δ ≤ (env.step s.t s.psi).2 := hstep s.t s.psi
          have h2 : (loopBody env s).t = s.t + (env.step s.t s.psi).2 := rfl
          rw [h2]
          push_cast at hs ⊢
          linarith
        · rw [runLoop, if_neg hg]
          exact not_lt.mp hg
    refine ⟨⌈(env.tmax - s0.t) / δ⌉₊, key _ s0 ?_⟩
    have h3 : (env.tmax - s0.t) / δ ≤ ((⌈(env.tmax - s0.t) / δ⌉₊ : ℕ) : ℚ) :=
      Nat.le_ceil _
    exact (div_le_iff₀ hpos).mp h3

/-- Witness for C3 at a concrete environment with step size 1/100. -/
theorem C3_witness : ∃ n : Nat, envC3.tmax ≤ (runLoop envC3 n s0C3).t :=
  (C3_loop_terminates envC3 s0C3 (1 / 100) (by norm_num) (fun _ _ => le_refl _)).2.2

/-- Counterexample to C4 as stated: in a run that takes exactly two
accepted steps (two residual records), the persistence log contains only
the single pre-loop snapshot while the loop runs — no record is handed to
the persistence collaborator once per step. -/
theorem C4_counterexample :
    (runLoop envC4 5 (initState envC4 ())).data.residuals.length = 2 ∧
    (runLoop envC4 5 (initState envC4 ())).saveLog.length = 1 := by
  norm_num [runLoop, loopBody, initState, envC4]

/-- Claim C4 (amended): after every accepted step the driver appends to the
in-memory time series one parameter snapshot, one observable record stamped
with the current time, and one residual record with the two residuals; the
time series is handed to the persistence collaborator once before the loop
and once after the loop completes, not once per accepted step. -/
theorem C4_records_appended_saves_bracketed {P : Type} (env : StepEnv P)
    (s : DriverState P) (p0 : P) (fuel : Nat) :
    (loopBody env s).data.parameters =
      s.data.parameters ++ [(env.step s.t s.psi).1] ∧
    (loopBody env s).data.observables =
      s.data.observables ++
        [(s.t + (env.step s.t s.psi).2,
          (env.meas (env.step s.t s.psi).1).1,
          (env.meas (env.step s.t s.psi).1).2)] ∧
    (loopBody env s).data.residuals =
      s.data.residuals ++
        [(s.t,
          (env.getResiduals (env.step s.t s.psi).1).1,
          (env.getResiduals (env.step s.t s.psi).1).2)] ∧
    (loopBody env s).saveLog = s.saveLog ∧
    (timeEvolutionRun env p0 fuel).saveLog.length = 2 := by
  refine ⟨rfl, rfl, ?_, rfl, ?_⟩
  · show s.data.residuals ++ [(s.t + (env.step s.t s.psi).2 - (env.step s.t s.psi).2, _, _)] = _
    rw [add_sub_cancel_right]
  · show ((runLoop env fuel (initState env p0)).saveLog ++ [(runLoop env fuel (initState env p0)).data]).length = 2
    rw [List.length_append, runLoop_saveLog]
    rfl

/-- Claim C9: at every point during and after the driver loop the recorded
time series satisfies `len(observables) = len(parameters) =
len(residuals) + 1`: the initial state contributes one observable record
and one parameter snapshot before any step, and residual records exist only
for completed steps. -/
theorem C9_series_length_invariant {P : Type} (env : StepEnv P) (p0 : P) (n : Nat) :
    seriesInvariant ((runLoop env n (initState env p0)).data) ∧
    seriesInvariant ((timeEvolutionRun env p0 n).data) := by
  have pres : ∀ s : DriverState P,
      seriesInvariant s.data → seriesInvariant (loopBody env s).data := by
    intro s hs
    obtain ⟨h1, h2⟩ := hs
    constructor
    · show (s.data.observables ++ _).length = (s.data.parameters ++ _).length
      simp [h1]
    · show (s.data.parameters ++ _).length = (s.data.residuals ++ _).length + 1
      simp [h2]
  have main : ∀ (k : Nat) (s : DriverState P), seriesInvariant s.data →
      seriesInvariant ((runLoop env k s).data) := by
    intro k
    induction k with
    | zero => intro s hs; exact hs
    | succ m ih =>
      intro s hs
      rw [runLoop]
      by_cases hg : s.t < env.tmax
      · rw [if_pos hg]; exact ih _ (pres s hs)
      · rw [if_neg hg]; exact hs
  have hinit : seriesInvariant ((initState env p0).data) := ⟨rfl, rfl⟩
  refine ⟨main n _ hinit, ?_⟩
  show seriesInvariant ((runLoop env n (initState env p0)).data)
  exact main n _ hinit

/-- Claim C5: the norm function handed to the adaptive stepper computes,
for every parameter-velocity vector `v`, the real part of
`conj(v)ᵀ · S_dot(v)` — the squared norm of `v` in the geometric-tensor
metric — and it differs from the naive Euclidean squared norm. -/
theorem C5_supplied_norm_is_metric_norm :
    (∀ (n : ℕ) (S : Matrix (Fin n) (Fin n) QComplex) (v : Fin n → QComplex),
        suppliedNormFunction S v = (∑ i, qconj (v i) * S.mulVec v i).re) ∧
    suppliedNormFunction exS exv ≠ ∑ i, qnormSq (exv i) := by
  constructor
  · intro n S v
    rfl
  · have hL : suppliedNormFunction exS exv = 2 := by
      simp [suppliedNormFunction, norm_fun, Fin.sum_univ_one, exS, exv,
        Matrix.mulVec, Matrix.dotProduct]
    have hR : ∑ i, qnormSq (exv i) = 1 := by
      simp [Fin.sum_univ_one, exv, qnormSq]
    rw [hL, hR]
    norm_num

/-- Claim C6: the ground-state-search TDVP equation uses the real
right-hand-side prefactor 1.0 with `makeReal='real'`, the real-time TDVP
equation uses the purely imaginary prefactor `1.j` with `makeReal='imag'`,
and the prefactor scales the force vector before it is returned. -/
theorem C6_rhs_prefactors :
    gsEquation.rhsPrefac = 1 ∧
    gsEquation.makeReal = MakeReal.real ∧
    tdvpEquation.rhsPrefac = qI ∧
    tdvpEquation.rhsPrefac.re = 0 ∧
    tdvpEquation.rhsPrefac.im = 1 ∧
    tdvpEquation.makeReal = MakeReal.imag ∧
    ∀ (n : ℕ) (F : Fin n → QComplex) (k : Fin n),
      scaledForce gsEquation F k = F k ∧
      scaledForce tdvpEquation F k = qI * F k :=
  ⟨rfl, rfl, rfl, rfl, rfl, rfl, fun _ F k => ⟨one_mul (F k), rfl⟩⟩

/-- Claim C7: for every geometric tensor `S` (and every regularized
pseudo-inverse of it), `solve` applied to the zero force vector returns the
zero velocity vector and linear residual 0; the normalized residual is
defined to be zero when `‖F‖ = 0`. -/
theorem C7_solve_zero_force {n : ℕ} (pinvS S : Matrix (Fin n) (Fin n) QComplex) :
    solve pinvS S 0 = (0, 0) := by
  have hv : pinvS.mulVec (0 : Fin n → QComplex) = 0 := Matrix.mulVec_zero pinvS
  have hn : vecNormSq (0 : Fin n → QComplex) = 0 := by
    simp [vecNormSq, qnormSq, show ((0 : QComplex)).re = 0 from rfl,
      show ((0 : QComplex)).im = 0 from rfl]
  simp [solve, hv, hn]

/-- Claim C8: with unchanged globals, `load_from_disk` returns exactly the
object most recently passed to `save_to_disk` under the same prefix,
because both deterministically build the same file name
`fn + "L=<L>_g=<g>_h=<h>.pkl"`. -/
theorem C8_disk_roundtrip {α : Type} (Lstr gstr hstr : String) (data : α)
    (fn : String) (fs : String → Option α) :
    load_from_disk Lstr gstr hstr fn (save_to_disk Lstr gstr hstr data fn fs) =
      some data ∧
    mkFileName fn Lstr gstr hstr =
      fn ++ "L=" ++ Lstr ++ "_g=" ++ gstr ++ "_h=" ++ hstr ++ ".pkl" := by
  constructor
  · show Function.update fs (mkFileName fn Lstr gstr hstr) (some data)
      (mkFileName fn Lstr gstr hstr) = some data
    simp
  · rfl

/-- Counterexample to C1 as stated: the notebook simulates `L = 8` sites
(not 4) and integrates to `tmax = 2.0` (not 0.1). -/
theorem C1_counterexample :
    ¬ (L = 4 ∧ g = 3 / 10 ∧ h = 1 / 4 ∧ stepper.timeStep = 1 / 1000 ∧
       stepper.tol = 1 / 10000 ∧ tmax = 1 / 10) := by
  intro hcon
  exact absurd hcon.1 (by decide)

/-- Claim C1 (amended): the end-to-end run simulates an 8-site ring with
nearest-neighbor σˣσˣ coupling strength 1.0 (neighbor `(l+1) % L`),
transverse field `g = 0.3`, longitudinal field `h = 0.25`, starts from the
ground state of `−Σ σˣ` (obtained by a variational ground-state search),
and integrates from `t = 0` to `tmax = 2.0` with initial step `dt = 1e-3`
and tolerance `1e-4`. -/
theorem C1_run_setup :
    L = 8 ∧ g = 3 / 10 ∧ h = 1 / 4 ∧
    H = ((List.range L).map (fun l =>
      [((-1 : ℚ), [Sx l, Sx ((l + 1) % L)]),
       (-(1 / 4 : ℚ), [Sx l]),
       (-(3 / 10 : ℚ), [Sz l])])).flatten ∧
    H_init = (List.range L).map (fun l => ((-1 : ℚ), [Sx l])) ∧
    t0 = 0 ∧ stepper.timeStep = 1 / 1000 ∧ stepper.tol = 1 / 10000 ∧
    tmax = 2 :=
  ⟨rfl, rfl, rfl, rfl, rfl, rfl, rfl, rfl, rfl⟩

/-- Claim C10: the `X` observable adds, for each of the `L` sites, exactly
the single-site term `σˣ_l` with coefficient `1/L` and nothing else, so it
is intensive and its local value on the fully x-polarized product state
(equal amplitudes on every basis configuration) is exactly 1. -/
theorem C10_X_is_mean_polarization (numSites : ℕ) (hL : 0 < numSites)
    (c : ℚ) (hc : c ≠ 0) (s : Nat → Bool) :
    buildX numSites =
      (List.range numSites).map (fun l => ((1 : ℚ) / (numSites : ℚ), [Sx l])) ∧
    localValue (buildX numSites) (fun _ => c) s = 1 := by
  have hbuild : buildX numSites =
      (List.range numSites).map (fun l => ((1 : ℚ) / (numSites : ℚ), [Sx l])) := by
    have hf := foldl_append_singleton
      (fun l => scal_opstr ((1 : ℚ) / (numSites : ℚ)) [Sx l]) (List.range numSites) []
    simpa [buildX, scal_opstr] using hf
  refine ⟨hbuild, ?_⟩
  rw [localValue, hbuild, List.map_map]
  have hterm : ((fun tm : OpTerm =>
        tm.1 * (applyOpString tm.2 s).2 * (fun _ => c) (applyOpString tm.2 s).1 /
          (fun _ => c) s) ∘
      (fun l => (((1 : ℚ) / (numSites : ℚ), [Sx l]) : OpTerm))) =
      fun _ => (1 : ℚ) / (numSites : ℚ) := by
    funext l
    show (1 : ℚ) / (numSites : ℚ) * (applyOpString [Sx l] s).2 * c / c =
      (1 : ℚ) / (numSites : ℚ)
    have h2 : (applyOpString [Sx l] s).2 = 1 := by
      simp [applyOpString, applyOp, Sx]
    rw [h2, mul_one, mul_div_assoc, div_self hc, mul_one]
  rw [hterm]
  have hnum : ((numSites : ℚ)) ≠ 0 := Nat.cast_ne_zero.mpr hL.ne'
  have hsum : ((List.range numSites).map
      (fun _ => (1 : ℚ) / (numSites : ℚ))).sum = (numSites : ℚ) * ((1 : ℚ) / (numSites : ℚ)) := by
    rw [List.map_const', List.sum_replicate, List.length_range, nsmul_eq_mul]
  rw [hsum, mul_one_div, div_self hnum]

/-- Witness for C10 at the notebook's system size `L = 8` and unit
amplitudes. -/
theorem C10_witness :
    buildX 8 = (List.range 8).map (fun l => ((1 : ℚ) / ((8 : ℕ) : ℚ), [Sx l])) ∧
    localValue (buildX 8) (fun _ => (1 : ℚ)) (fun _ => false) = 1 :=
  C10_X_is_mean_polarization 8 (by decide) 1 (by decide) (fun _ => false)

end NQSNotebook
